import Mathlib

/-!
Verification of the distributed-url-shortener repository.

The repository source under scrutiny is the frontend screen
`src/frontend/app/index.tsx` (a React Native component) together with the
specification of the backend core (spec.md).  The frontend logic —
URL validation, request construction, local list maintenance on
shorten/delete/refresh, display helpers — is embedded below as pure Lean
functions.  The backend store and shortening service (Python, not present
in the source tree) are modelled from the spec where a claim depends on
them; those definitions carry a doc comment starting with
"Modelled from the spec:".
-/

namespace UrlShortener

/-- The URL record interface from `src/frontend/app/index.tsx` lines 27–34.
JavaScript numbers holding click counts are embedded as `Nat` (the spec
declares `clicks` a non-negative integer). -/
structure URL where
  original_url : String
  short_code : String
  clicks : Nat
  created_at : String
  qr_code : String
  custom : Bool
deriving DecidableEq, Repr

/-- A JavaScript line terminator, which the regex metacharacter `.` does not
match (no `s` flag is used in the source). -/
def jsLineTerm (c : Char) : Bool :=
  c == '\n' || c == '\r' || c == '\u2028' || c == '\u2029'

/-- Embedding of the test `originalUrl.match(/^https?:\/\/.+/)` from
`index.tsx` line 69: the string must start with `http://` or `https://`
followed by at least one character that `.` matches. -/
def matchesUrlPattern (s : String) : Bool :=
  match s.data with
  | 'h' :: 't' :: 't' :: 'p' :: ':' :: '/' :: '/' :: c :: _ => !jsLineTerm c
  | 'h' :: 't' :: 't' :: 'p' :: 's' :: ':' :: '/' :: '/' :: c :: _ => !jsLineTerm c
  | _ => false

/-- Embedding of JavaScript `String.prototype.trim`: strip whitespace from
both ends (ASCII whitespace, which covers every character these claims
quantify over). -/
def jsTrim (s : String) : String :=
  ⟨((s.data.dropWhile Char.isWhitespace).reverse.dropWhile Char.isWhitespace).reverse⟩

/-- The body of the POST `/api/shorten` request built at `index.tsx`
lines 76–79. -/
structure ShortenRequest where
  original_url : String
  custom_code : Option String
deriving DecidableEq, Repr

/-- Embedding of `customCode.trim() || null` (`index.tsx` line 78): an empty
trimmed custom code is replaced by `null`, otherwise the trimmed code is
sent. -/
def jsOrNull (customCode : String) : Option String :=
  if jsTrim customCode = "" then none else some (jsTrim customCode)

/-- The backend's answer to a shorten request as the frontend observes it:
either a fresh record, or an error that may carry a `detail` string. -/
inductive BackendResp where
  | ok (record : URL)
  | err (detail : Option String)

/-- Embedding of the JavaScript expression `detail || fallback`
(`index.tsx` line 88): a missing detail AND an empty detail string are both
falsy, so either selects the fallback message. -/
def jsStringOr (d : Option String) (fallback : String) : String :=
  match d with
  | none => fallback
  | some m => if m = "" then fallback else m

/-- Observable outcome of one `shortenUrl` call: whether a request was sent
(and which), the resulting local list, and the alert displayed. -/
structure ShortenResult where
  sentRequest : Option ShortenRequest
  urls : List URL
  alertTitle : String
  alertMessage : String
deriving DecidableEq, Repr

/-- Embedding of `shortenUrl` (`index.tsx` lines 62–93).  The async backend
call is abstracted as a function from the request to the response.  The
success branch prepends the returned record (`setUrls([response.data,
...urls])`); every other branch leaves the list untouched. -/
def shortenUrl (originalUrl customCode : String) (urls : List URL)
    (backend : ShortenRequest → BackendResp) : ShortenResult :=
  if jsTrim originalUrl = "" then
    ⟨none, urls, "Error", "Please enter a URL"⟩
  else if matchesUrlPattern originalUrl = false then
    ⟨none, urls, "Error", "Please enter a valid URL (must start with http:// or https://)"⟩
  else
    let req : ShortenRequest := ⟨originalUrl, jsOrNull customCode⟩
    match backend req with
    | .ok r => ⟨some req, r :: urls, "Success", "URL shortened successfully!"⟩
    | .err d => ⟨some req, urls, "Error", jsStringOr d "Failed to shorten URL"⟩

/-- Embedding of the confirmed-delete handler (`index.tsx` lines 104–113):
on backend success the local list is filtered by
`url.short_code !== shortCode`; on failure it is unchanged. -/
def deleteUrl (urls : List URL) (shortCode : String) (backendOk : Bool) : List URL :=
  if backendOk then urls.filter (fun url => url.short_code != shortCode) else urls

/-- Embedding of `fetchUrls` (`index.tsx` lines 49–60): on success the local
list is replaced by the fetched data, on failure it is unchanged. -/
def fetchUrlsResult (old fetched : List URL) (backendOk : Bool) : List URL :=
  if backendOk then fetched else old

/-- Embedding of `getShortUrl` (`index.tsx` lines 124–126):
the template literal `BACKEND_URL + "/api/" + shortCode`. -/
def getShortUrl (backendUrl shortCode : String) : String :=
  backendUrl ++ "/api/" ++ shortCode

/-- The short URL rendered in the list card (`index.tsx` line 257), the same
template literal. -/
def displayedShortUrl (backendUrl : String) (u : URL) : String :=
  backendUrl ++ "/api/" ++ u.short_code

/-- The string handed to `copyToClipboard` at the call site
(`index.tsx` line 275): `getShortUrl(url.short_code)`. -/
def clipboardTextOnCopy (backendUrl : String) (u : URL) : String :=
  getShortUrl backendUrl u.short_code

/-- Embedding of JavaScript `url.substring(0, n)`: the first `n`
characters. -/
def jsSubstring (s : String) (n : Nat) : String :=
  ⟨s.data.take n⟩

/-- Embedding of `truncateUrl` (`index.tsx` lines 137–140). -/
def truncateUrl (url : String) (maxLength : Nat) : String :=
  if url.length ≤ maxLength then url else jsSubstring url maxLength ++ "..."

/-- The one-argument form of `truncateUrl`, whose declared default bound
is 40. -/
def truncateUrlDefault (url : String) : String :=
  truncateUrl url 40

/-- Modelled from the spec: the URL-safe alphabet of spec §3/§4.1 (letters,
digits, `-`, `_`); the backend CodeGenerator that checks it is not in the
source tree. -/
def urlSafeChar (c : Char) : Bool :=
  c.isAlpha || c.isDigit || c == '-' || c == '_'

/-- Modelled from the spec: `CodeGenerator.validateCustom` (spec §4.1) —
"a custom code must be non-empty, within length bounds (1–32), and
restricted to the same URL-safe alphabet"; the Python backend holding this
check is not in the source tree. -/
def validateCustom (code : String) : Bool :=
  decide (1 ≤ code.length) && decide (code.length ≤ 32) && code.data.all urlSafeChar

/-- Modelled from the spec: `MappingStore.insertIfAbsent` (spec §4.2) —
atomic check-and-insert keyed by `shortCode`, refusing a second record for
an existing code; the Python backend store is not in the source tree.  The
store is embedded as the list of its records. -/
def insertIfAbsent (store : List URL) (r : URL) : Option (List URL) :=
  if store.any (fun x => x.short_code == r.short_code) then none else some (r :: store)

/-- Modelled from the spec: `MappingStore.get` (spec §4.2), lookup by
short code; the Python backend store is not in the source tree. -/
def storeGet (store : List URL) (code : String) : Option URL :=
  store.find? (fun x => x.short_code == code)

/-- Modelled from the spec: the record persisted by ShorteningService
(spec §3, §4.3): clicks start at 0, `isCustom` reflects how the code was
obtained; the Python backend service is not in the source tree. -/
def mkRecord (originalUrl code now : String) (isCustom : Bool) : URL :=
  ⟨originalUrl, code, 0, now, "", isCustom⟩

/-- Errors of `shorten` per spec §4.3/§7. -/
inductive ShortenError where
  | validationError
  | invalidCodeError
  | alreadyExists
  | codeSpaceExhausted
deriving DecidableEq, Repr

/-- Modelled from the spec: the generated-code retry loop of spec §4.3
step 3, iterating over the bounded list of generated candidates and failing
with `CodeSpaceExhausted` when they run out; the Python backend service is
not in the source tree. -/
def insertLoop (store : List URL) (mk : String → URL) :
    List String → List URL × (ShortenError ⊕ URL)
  | [] => (store, Sum.inl ShortenError.codeSpaceExhausted)
  | c :: rest =>
    match insertIfAbsent store (mk c) with
    | some store' => (store', Sum.inr (mk c))
    | none => insertLoop store mk rest

/-- Modelled from the spec: `ShorteningService.shorten` (spec §4.3) —
validate the URL, then either validate-and-insert the custom code or run
the generated-code retry loop; the Python backend service is not in the
source tree.  `candidates` is the (bounded) stream of generated codes and
`now` the creation timestamp, threaded explicitly for determinism. -/
def serviceShorten (store : List URL) (originalUrl : String)
    (customCode : Option String) (candidates : List String) (now : String) :
    List URL × (ShortenError ⊕ URL) :=
  if matchesUrlPattern originalUrl = false then
    (store, Sum.inl ShortenError.validationError)
  else
    match customCode with
    | some code =>
      if validateCustom code = false then
        (store, Sum.inl ShortenError.invalidCodeError)
      else
        match insertIfAbsent store (mkRecord originalUrl code now true) with
        | some store' => (store', Sum.inr (mkRecord originalUrl code now true))
        | none => (store, Sum.inl ShortenError.alreadyExists)
    | none => insertLoop store (fun c => mkRecord originalUrl c now false) candidates

/-- Pairwise distinctness of the short codes of a record list. -/
def distinctCodes (l : List URL) : Prop :=
  (l.map URL.short_code).Nodup

/-- The reachable states of the system: the backend store paired with the
frontend's local list.  Steps are the operations the claims name — a
successful shorten (store insert per spec §4.2 plus the frontend prepend of
`index.tsx` line 81), a delete (store removal plus the frontend filter of
`index.tsx` line 107), and a refresh (`index.tsx` lines 49–60, receiving
the store's records in the order `listAll` chose, i.e. some permutation of
the store). -/
inductive SysReachable : List URL → List URL → Prop where
  | init : SysReachable [] []
  | shortenOk : ∀ store uiList r store', SysReachable store uiList →
      insertIfAbsent store r = some store' → SysReachable store' (r :: uiList)
  | deleteOk : ∀ store uiList c, SysReachable store uiList →
      SysReachable (store.filter (fun u => u.short_code != c))
        (uiList.filter (fun u => u.short_code != c))
  | refresh : ∀ store uiList uiList', SysReachable store uiList →
      store.Perm uiList' → SysReachable store uiList'

/-- The listing order of spec §4.2 (`listAll(orderBy=createdAt desc)`):
each record's creation timestamp is at most that of every record before
it. -/
def sortedByCreatedDesc (l : List URL) : Prop :=
  l.Pairwise (fun a b => b.created_at ≤ a.created_at)

/-- Sample record with a custom code, used to evaluate theorems on concrete
inputs. -/
def recA : URL :=
  ⟨"http://a.example", "abc", 0, "2024-01-02T00:00:00", "qr-a", true⟩

/-- Sample record with a generated code, used to evaluate theorems on
concrete inputs. -/
def recB : URL :=
  ⟨"http://b.example", "xyz", 2, "2024-01-01T00:00:00", "qr-b", false⟩

/-! ### Helper lemmas -/

theorem dropWhile_trim_ne_nil {l : List Char} {c : Char} {rest : List Char}
    (hl : l = c :: rest) (hc : Char.isWhitespace c = false) :
    ((l.dropWhile Char.isWhitespace).reverse.dropWhile Char.isWhitespace).reverse ≠ [] := by
  intro hnil
  rw [List.reverse_eq_nil_iff, List.dropWhile_eq_nil_iff] at hnil
  have hdw : l.dropWhile Char.isWhitespace = l := by
    rw [hl, List.dropWhile_cons]
    simp [hc]
  have hcmem : c ∈ (l.dropWhile Char.isWhitespace).reverse := by
    rw [hdw, hl]
    simp
  have := hnil c hcmem
  rw [hc] at this
  exact Bool.false_ne_true this

theorem jsTrim_ne_empty_of_matches {s : String} (h : matchesUrlPattern s = true) :
    jsTrim s ≠ "" := by
  intro hEq
  have hdata : (jsTrim s).data = [] := by rw [hEq]
  unfold matchesUrlPattern at h
  split at h
  case h_1 rest heq =>
    exact dropWhile_trim_ne_nil heq (by decide) hdata
  case h_2 rest heq =>
    exact dropWhile_trim_ne_nil heq (by decide) hdata
  case h_3 =>
    exact Bool.false_ne_true h

theorem mem_map_short_code {store : List URL} {a : String} :
    a ∈ store.map URL.short_code ↔ ∃ x ∈ store, x.short_code = a := by
  simp [List.mem_map]

theorem insertIfAbsent_some {store store' : List URL} {r : URL}
    (h : insertIfAbsent store r = some store') :
    store' = r :: store ∧ r.short_code ∉ store.map URL.short_code := by
  unfold insertIfAbsent at h
  by_cases hany : store.any (fun x => x.short_code == r.short_code) = true
  · rw [if_pos hany] at h
    exact absurd h (by simp)
  · rw [if_neg hany] at h
    refine ⟨(Option.some_inj.mp h).symm, ?_⟩
    intro hmem
    obtain ⟨x, hx, hxc⟩ := mem_map_short_code.mp hmem
    exact hany (List.any_eq_true.mpr ⟨x, hx, by simp [hxc]⟩)

theorem insertIfAbsent_eq_none {store : List URL} {r : URL} {x : URL}
    (hx : x ∈ store) (hc : x.short_code = r.short_code) :
    insertIfAbsent store r = none := by
  unfold insertIfAbsent
  rw [if_pos (List.any_eq_true.mpr ⟨x, hx, by simp [hc]⟩)]

theorem map_filter_code_sublist (l : List URL) (c : String) :
    List.Sublist ((l.filter (fun u => u.short_code != c)).map URL.short_code)
      (l.map URL.short_code) :=
  (List.filter_sublist l).map URL.short_code

/-- The inductive invariant of the reachable system states: the store's
codes are distinct, the frontend list's codes are distinct, and every code
shown in the frontend list is a code of the store. -/
theorem sysReachable_invariant {store uiList : List URL}
    (h : SysReachable store uiList) :
    distinctCodes store ∧ distinctCodes uiList ∧
      ∀ a ∈ uiList.map URL.short_code, a ∈ store.map URL.short_code := by
  induction h with
  | init => exact ⟨List.nodup_nil, List.nodup_nil, by simp⟩
  | shortenOk store uiList r store' _ hins ih =>
    obtain ⟨hstore, hui, hsub⟩ := ih
    obtain ⟨rfl, hfresh⟩ := insertIfAbsent_some hins
    refine ⟨?_, ?_, ?_⟩
    · exact List.nodup_cons.mpr ⟨hfresh, hstore⟩
    · exact List.nodup_cons.mpr ⟨fun hmem => hfresh (hsub _ hmem), hui⟩
    · intro a ha
      rcases List.mem_cons.mp ha with h1 | h1
      · simp [h1]
      · exact List.mem_cons.mpr (Or.inr (hsub _ h1))
  | deleteOk store uiList c _ ih =>
    obtain ⟨hstore, hui, hsub⟩ := ih
    refine ⟨(map_filter_code_sublist store c).nodup hstore,
      (map_filter_code_sublist uiList c).nodup hui, ?_⟩
    intro a ha
    obtain ⟨x, hx, rfl⟩ := List.mem_map.mp ha
    obtain ⟨hxui, hxc⟩ := List.mem_filter.mp hx
    obtain ⟨y, hy, hyc⟩ := mem_map_short_code.mp (hsub _ (List.mem_map_of_mem _ hxui))
    refine mem_map_short_code.mpr ⟨y, List.mem_filter.mpr ⟨hy, ?_⟩, hyc⟩
    rw [hyc]
    exact hxc
  | refresh store uiList uiList' _ hperm ih =>
    obtain ⟨hstore, _, _⟩ := ih
    refine ⟨hstore, (hperm.map URL.short_code).nodup hstore, ?_⟩
    intro a ha
    exact (hperm.map URL.short_code).mem_iff.mpr ha

theorem insertLoop_result (store : List URL) (mk : String → URL) :
    ∀ candidates : List String,
      (insertLoop store mk candidates).2 ≠ Sum.inl ShortenError.invalidCodeError ∧
      ∀ r, (insertLoop store mk candidates).2 = Sum.inr r → ∃ c, r = mk c := by
  intro candidates
  induction candidates with
  | nil => exact ⟨by simp [insertLoop], by simp [insertLoop]⟩
  | cons c rest ih =>
    unfold insertLoop
    cases hins : insertIfAbsent store (mk c) with
    | some store' =>
      refine ⟨by simp, ?_⟩
      intro r hr
      simp at hr
      exact ⟨c, hr.symm⟩
    | none => exact ih

/-! ### Claims -/

/-- Claim C5: after a successful delete of code `c`, the resulting list is
the previous list with exactly the records of code `c` removed — it is a
sublist of the old list (order preserved), holds no record of code `c`,
keeps every record of a different code, and around any kept record the
list decomposes as the filtered prefix, the record, and the filtered
suffix. -/
theorem deleteUrl_removes_exactly_code : ∀ (urls : List URL) (c : String),
    List.Sublist (deleteUrl urls c true) urls ∧
    (∀ r ∈ deleteUrl urls c true, r.short_code ≠ c) ∧
    (∀ r ∈ urls, r.short_code ≠ c → r ∈ deleteUrl urls c true) ∧
    ∀ (l₁ l₂ : List URL) (r : URL), urls = l₁ ++ r :: l₂ → r.short_code ≠ c →
      deleteUrl urls c true = deleteUrl l₁ c true ++ r :: deleteUrl l₂ c true := by
  intro urls c
  refine ⟨?_, ?_, ?_, ?_⟩
  · simp only [deleteUrl, if_pos rfl]
    exact List.filter_sublist urls
  · intro r hr
    have h : r ∈ urls ∧ ¬r.short_code = c := by
      simpa [deleteUrl, List.mem_filter, bne_iff_ne] using hr
    exact h.2
  · intro r hr hne
    simp [deleteUrl, List.mem_filter, hr, bne_iff_ne, hne]
  · intro l₁ l₂ r hurls hne
    subst hurls
    simp [deleteUrl, List.filter_append, List.filter_cons, bne_iff_ne, hne]

theorem deleteUrl_removes_exactly_code_witness :
    recB ∈ deleteUrl [recA, recB] "abc" true ∧
    List.Sublist (deleteUrl [recA, recB] "abc" true) [recA, recB] :=
  ⟨(deleteUrl_removes_exactly_code [recA, recB] "abc").2.2.1 recB (by decide) (by decide),
   (deleteUrl_removes_exactly_code [recA, recB] "abc").1⟩

/-- Claim C7: the full short URL shown in the list card and the one handed
to the clipboard on Copy are both `base ++ code` for one fixed base
(`BACKEND_URL ++ "/api/"`), hence a deterministic function of the short
code alone. -/
theorem shortUrl_is_base_append_code : ∀ backendUrl : String, ∃ base : String,
    (∀ code : String, getShortUrl backendUrl code = base ++ code) ∧
    ∀ u : URL, displayedShortUrl backendUrl u = base ++ u.short_code ∧
      clipboardTextOnCopy backendUrl u = base ++ u.short_code := by
  intro b
  refine ⟨b ++ "/api/", fun code => ?_, fun u => ⟨?_, ?_⟩⟩ <;>
    simp [getShortUrl, displayedShortUrl, clipboardTextOnCopy, String.append_assoc]

/-- Claim C10: `truncateUrl u n` returns `u` itself exactly when `u` has at
most `n` characters, else the first `n` characters of `u` followed by
`"..."`; the result never exceeds `n + 3` characters and always extends the
first `n` characters of `u`; the default bound of the one-argument form
is 40. -/
theorem truncateUrl_spec : ∀ (u : String) (n : Nat),
    (u.length ≤ n → truncateUrl u n = u) ∧
    (n < u.length → truncateUrl u n = jsSubstring u n ++ "..." ∧
      (jsSubstring u n).length = n) ∧
    (truncateUrl u n).length ≤ n + 3 ∧
    (∃ t, (truncateUrl u n).data = u.data.take n ++ t) ∧
    truncateUrlDefault u = truncateUrl u 40 := by
  intro u n
  by_cases h : u.length ≤ n
  · refine ⟨fun _ => by simp [truncateUrl, h], fun hlt => absurd h (by omega),
      ?_, ⟨u.data.drop n, ?_⟩, rfl⟩
    · simp only [truncateUrl, if_pos h]
      omega
    · simp only [truncateUrl, if_pos h]
      exact (List.take_append_drop n u.data).symm
  · have hlt : n < u.length := by omega
    have hsublen : (jsSubstring u n).length = n := by
      show (u.data.take n).length = n
      have : u.data.length = u.length := rfl
      rw [List.length_take]
      omega
    refine ⟨fun hle => absurd hle h, fun _ => ⟨by simp [truncateUrl, h], hsublen⟩,
      ?_, ⟨"...".data, ?_⟩, rfl⟩
    · simp only [truncateUrl, if_neg h]
      rw [String.length_append, hsublen]
      have hdots : ("..." : String).length = 3 := rfl
      omega
    · simp only [truncateUrl, if_neg h]
      rfl

theorem truncateUrl_spec_witness :
    3 < ("abcdefgh" : String).length ∧
    truncateUrl "abcdefgh" 3 = jsSubstring "abcdefgh" 3 ++ "..." :=
  ⟨by decide, ((truncateUrl_spec "abcdefgh" 3).2.1 (by decide)).1⟩

/-- Claim C1: `shortenUrl` submits a creation request if and only if the
input URL matches `^https?://.+`; when it does not (including the empty and
whitespace-only string) the user gets an error alert, no request is sent,
and the stored list is unchanged. -/
theorem shortenUrl_validates_before_request :
    ∀ (s c : String) (urls : List URL) (backend : ShortenRequest → BackendResp),
    ((shortenUrl s c urls backend).sentRequest.isSome = true ↔
      matchesUrlPattern s = true) ∧
    (matchesUrlPattern s = false →
      (shortenUrl s c urls backend).sentRequest = none ∧
      (shortenUrl s c urls backend).urls = urls ∧
      (shortenUrl s c urls backend).alertTitle = "Error") := by
  intro s c urls backend
  by_cases h1 : jsTrim s = ""
  · have h2 : matchesUrlPattern s = false := by
      cases hm : matchesUrlPattern s
      · rfl
      · exact absurd h1 (jsTrim_ne_empty_of_matches hm)
    simp [shortenUrl, h1, h2]
  · by_cases h2 : matchesUrlPattern s = false
    · simp [shortenUrl, h1, h2]
    · have h2' : matchesUrlPattern s = true := by
        cases hm : matchesUrlPattern s
        · exact absurd hm h2
        · rfl
      cases hb : backend ⟨s, jsOrNull c⟩ <;> simp [shortenUrl, h1, h2', hb]

theorem shortenUrl_validates_before_request_witness :
    matchesUrlPattern "not-a-url" = false ∧
    (shortenUrl "not-a-url" "" [] (fun _ => BackendResp.err none)).urls = [] ∧
    (shortenUrl "not-a-url" "" [] (fun _ => BackendResp.err none)).sentRequest = none :=
  ⟨by decide,
   ((shortenUrl_validates_before_request "not-a-url" "" []
      (fun _ => BackendResp.err none)).2 (by decide)).2.1,
   ((shortenUrl_validates_before_request "not-a-url" "" []
      (fun _ => BackendResp.err none)).2 (by decide)).1⟩

/-- Claim C6: assuming the fetched list arrives createdAt-descending and
every newly created record is at least as recent as everything already
listed, each operation — prepending on a successful shorten, filtering on
delete, replacing on refresh — preserves the createdAt-descending order of
the local list. -/
theorem operations_preserve_created_desc :
    (∀ (s c : String) (urls : List URL) (backend : ShortenRequest → BackendResp),
      sortedByCreatedDesc urls →
      (∀ req r, backend req = BackendResp.ok r →
        ∀ x ∈ urls, x.created_at ≤ r.created_at) →
      sortedByCreatedDesc (shortenUrl s c urls backend).urls) ∧
    (∀ (urls : List URL) (c : String) (ok : Bool),
      sortedByCreatedDesc urls → sortedByCreatedDesc (deleteUrl urls c ok)) ∧
    (∀ (old fetched : List URL) (ok : Bool),
      sortedByCreatedDesc old → sortedByCreatedDesc fetched →
      sortedByCreatedDesc (fetchUrlsResult old fetched ok)) := by
  refine ⟨?_, ?_, ?_⟩
  · intro s c urls backend hs hnew
    unfold shortenUrl
    by_cases h1 : jsTrim s = ""
    · simpa [h1] using hs
    · by_cases h2 : matchesUrlPattern s = false
      · simpa [h1, h2] using hs
      · cases hb : backend ⟨s, jsOrNull c⟩ with
        | ok r =>
          have : sortedByCreatedDesc (r :: urls) :=
            List.pairwise_cons.mpr ⟨fun x hx => hnew _ r hb x hx, hs⟩
          simpa [h1, h2, hb] using this
        | err d => simpa [h1, h2, hb] using hs
  · intro urls c ok hs
    cases ok
    · simpa [deleteUrl] using hs
    · have : sortedByCreatedDesc (urls.filter (fun u => u.short_code != c)) :=
        hs.sublist (List.filter_sublist urls)
      simpa [deleteUrl] using this
  · intro old fetched ok h1 h2
    cases ok
    · simpa [fetchUrlsResult] using h1
    · simpa [fetchUrlsResult] using h2

theorem operations_preserve_created_desc_witness :
    sortedByCreatedDesc
      ((shortenUrl "http://a.example" "" []
        (fun _ => BackendResp.err none)).urls) :=
  operations_preserve_created_desc.1 "http://a.example" "" []
    (fun _ => BackendResp.err none) List.Pairwise.nil
    (fun _ _ h => nomatch h)

/-- Claim C2: at every reachable state of the record list no two records
share a short code — successful shorten, delete and refresh all preserve
pairwise distinctness of the codes, in the frontend list and in the
store. -/
theorem reachable_shortCodes_distinct : ∀ (store uiList : List URL),
    SysReachable store uiList → distinctCodes uiList ∧ distinctCodes store := by
  intro store uiList h
  obtain ⟨h1, h2, _⟩ := sysReachable_invariant h
  exact ⟨h2, h1⟩

theorem reachable_shortCodes_distinct_witness :
    distinctCodes [recA] ∧ distinctCodes [recA] :=
  reachable_shortCodes_distinct [recA] [recA]
    (SysReachable.shortenOk [] [] recA [recA] SysReachable.init rfl)

/-- Claim C3: a custom code that is empty, longer than 32 characters, or
contains a character outside the URL-safe alphabet is rejected by shorten
with `InvalidCodeError` and is never submitted for insertion (the store
is returned unchanged); moreover whitespace characters are never
URL-safe. -/
theorem serviceShorten_rejects_invalid_custom :
    (∀ (store : List URL) (u code now : String) (cands : List String),
      matchesUrlPattern u = true →
      (code = "" ∨ 32 < code.length ∨ ∃ ch ∈ code.data, urlSafeChar ch = false) →
      serviceShorten store u (some code) cands now =
        (store, Sum.inl ShortenError.invalidCodeError)) ∧
    ∀ ch : Char, ch.isWhitespace = true → urlSafeChar ch = false := by
  constructor
  · intro store u code now cands hu hbad
    have hval : validateCustom code = false := by
      unfold validateCustom
      rcases hbad with h | h | ⟨ch, hch, hbadch⟩
      · subst h; decide
      · have hd : decide (code.length ≤ 32) = false := decide_eq_false (by omega)
        simp [hd]
      · have hall : code.data.all urlSafeChar = false :=
          List.all_eq_false.mpr ⟨ch, hch, by simp [hbadch]⟩
        simp [hall]
    simp [serviceShorten, hu, hval]
  · intro ch h
    have h4 : ch = ' ' ∨ ch = '\t' ∨ ch = '\r' ∨ ch = '\n' := by
      simp [Char.isWhitespace] at h
      tauto
    rcases h4 with rfl | rfl | rfl | rfl <;> decide

theorem serviceShorten_rejects_invalid_custom_witness :
    matchesUrlPattern "http://a.example" = true ∧
    serviceShorten [] "http://a.example" (some "a b") [] "t" =
      ([], Sum.inl ShortenError.invalidCodeError) :=
  ⟨by decide,
   serviceShorten_rejects_invalid_custom.1 [] "http://a.example" "a b" "t" []
     (by decide) (Or.inr (Or.inr ⟨' ', by decide, by decide⟩))⟩

/-- Claim C4, counterexample to the claim as stated: when the backend's
error detail is the empty string, the alert shows the generic fallback, not
the detail verbatim — JavaScript's `detail || fallback` treats `""` as
falsy. -/
theorem failed_shorten_empty_detail_not_verbatim :
    (shortenUrl "http://a.example" "" []
        (fun _ => BackendResp.err (some ""))).alertMessage ≠ "" ∧
    (shortenUrl "http://a.example" "" []
        (fun _ => BackendResp.err (some ""))).alertMessage =
      "Failed to shorten URL" :=
  ⟨by decide, by decide⟩

/-- Claim C4 (amended): a shorten call that fails at the backend leaves the
local list unchanged; a non-empty error detail is surfaced verbatim, while
a missing or empty detail is replaced by the generic fallback message; on
the store side, shortening with an already-taken custom code yields
`AlreadyExists`, the store is unchanged, and the contested code still maps
to its original record. -/
theorem failed_shorten_preserves_store :
    (∀ (s c : String) (urls : List URL) (backend : ShortenRequest → BackendResp)
        (d : Option String),
      matchesUrlPattern s = true →
      backend ⟨s, jsOrNull c⟩ = BackendResp.err d →
      (shortenUrl s c urls backend).urls = urls ∧
      (shortenUrl s c urls backend).alertMessage =
        jsStringOr d "Failed to shorten URL" ∧
      ∀ m, d = some m → m ≠ "" →
        (shortenUrl s c urls backend).alertMessage = m) ∧
    ∀ (store : List URL) (u code now : String) (cands : List String) (x : URL),
      matchesUrlPattern u = true → validateCustom code = true →
      storeGet store code = some x →
      serviceShorten store u (some code) cands now =
        (store, Sum.inl ShortenError.alreadyExists) ∧
      storeGet (serviceShorten store u (some code) cands now).1 code = some x := by
  constructor
  · intro s c urls backend d hm hb
    have h1 : jsTrim s ≠ "" := jsTrim_ne_empty_of_matches hm
    have hred : shortenUrl s c urls backend =
        ⟨some ⟨s, jsOrNull c⟩, urls, "Error", jsStringOr d "Failed to shorten URL"⟩ := by
      simp [shortenUrl, h1, hm, hb]
    rw [hred]
    refine ⟨rfl, rfl, ?_⟩
    rintro m rfl hne
    simp [jsStringOr, hne]
  · intro store u code now cands x hu hval hget
    have hmem : x ∈ store := List.mem_of_find?_eq_some hget
    have hcode : x.short_code = code := by
      have h := List.find?_some hget
      simpa using h
    have hins : insertIfAbsent store (mkRecord u code now true) = none :=
      insertIfAbsent_eq_none hmem (by simpa [mkRecord] using hcode)
    have hred : serviceShorten store u (some code) cands now =
        (store, Sum.inl ShortenError.alreadyExists) := by
      simp [serviceShorten, hu, hval, hins]
    exact ⟨hred, by rw [hred]; exact hget⟩

theorem failed_shorten_preserves_store_witness :
    ((shortenUrl "http://b.example" "abc" [recA]
        (fun _ => BackendResp.err (some "Short code already exists"))).urls = [recA] ∧
      (shortenUrl "http://b.example" "abc" [recA]
        (fun _ => BackendResp.err (some "Short code already exists"))).alertMessage =
          "Short code already exists") ∧
    serviceShorten [recA] "http://b.example" (some "abc") [] "t" =
      ([recA], Sum.inl ShortenError.alreadyExists) ∧
    storeGet (serviceShorten [recA] "http://b.example" (some "abc") [] "t").1 "abc" =
      some recA :=
  ⟨⟨((failed_shorten_preserves_store.1 "http://b.example" "abc" [recA]
        (fun _ => BackendResp.err (some "Short code already exists"))
        (some "Short code already exists") (by decide) rfl).1),
    ((failed_shorten_preserves_store.1 "http://b.example" "abc" [recA]
        (fun _ => BackendResp.err (some "Short code already exists"))
        (some "Short code already exists") (by decide) rfl).2.2 _ rfl
        (by decide))⟩,
   failed_shorten_preserves_store.2 [recA] "http://b.example" "abc" "t" [] recA
     (by decide) (by decide) (by decide)⟩

/-- Claim C9: a shorten submission whose custom-code field is empty or
whitespace-only is sent with a `null` custom code, and shorten then takes
the generated-code path — it never answers `InvalidCodeError`, and a
successful record is marked not custom. -/
theorem blank_custom_code_sent_null :
    ∀ (s c : String) (urls : List URL) (backend : ShortenRequest → BackendResp)
      (store : List URL) (u now : String) (cands : List String),
    jsTrim c = "" →
    (∀ req, (shortenUrl s c urls backend).sentRequest = some req →
      req.custom_code = none) ∧
    (serviceShorten store u none cands now).2 ≠
      Sum.inl ShortenError.invalidCodeError ∧
    ∀ r, (serviceShorten store u none cands now).2 = Sum.inr r →
      r.custom = false := by
  intro s c urls backend store u now cands htrim
  refine ⟨?_, ?_, ?_⟩
  · intro req hreq
    unfold shortenUrl at hreq
    by_cases h1 : jsTrim s = ""
    · rw [if_pos h1] at hreq
      exact absurd hreq (by simp)
    · rw [if_neg h1] at hreq
      by_cases h2 : matchesUrlPattern s = false
      · rw [if_pos h2] at hreq
        exact absurd hreq (by simp)
      · rw [if_neg h2] at hreq
        have hr : (⟨s, jsOrNull c⟩ : ShortenRequest) = req := by
          have hreq' : (match backend (⟨s, jsOrNull c⟩ : ShortenRequest) with
              | BackendResp.ok r =>
                (⟨some ⟨s, jsOrNull c⟩, r :: urls, "Success",
                  "URL shortened successfully!"⟩ : ShortenResult)
              | BackendResp.err d =>
                ⟨some ⟨s, jsOrNull c⟩, urls, "Error",
                  jsStringOr d "Failed to shorten URL"⟩).sentRequest = some req := hreq
          cases hb : backend (⟨s, jsOrNull c⟩ : ShortenRequest) <;>
            rw [hb] at hreq' <;> exact Option.some.inj hreq'
        rw [← hr]
        simp [jsOrNull, htrim]
  · unfold serviceShorten
    by_cases hu : matchesUrlPattern u = false
    · rw [if_pos hu]
      simp
    · rw [if_neg hu]
      exact (insertLoop_result store _ cands).1
  · intro r hr
    unfold serviceShorten at hr
    by_cases hu : matchesUrlPattern u = false
    · rw [if_pos hu] at hr
      exact absurd hr (by simp)
    · rw [if_neg hu] at hr
      obtain ⟨cc, rfl⟩ := (insertLoop_result store _ cands).2 r hr
      rfl

theorem blank_custom_code_sent_null_witness :
    jsTrim "   " = "" ∧
    (serviceShorten [] "http://a.example" none ["xyz"] "t").2 ≠
      Sum.inl ShortenError.invalidCodeError :=
  ⟨by decide,
   (blank_custom_code_sent_null "http://a.example" "   " []
     (fun _ => BackendResp.err none) [] "http://a.example" "t" ["xyz"]
     (by decide)).2.1⟩

end UrlShortener
